import Mathlib

/-!
Verification development for the AI-TREE-IDENTIFIER single-page application.

The repository has two source units:
* `services/geminiService.ts` — the encoder (`fileToGenerativePart`) and the
  identification client (`identifyTree`);
* the application component (`App`, `ImageUploader`, `ResultDisplay`) holding
  the UI state (`selectedFile`, `treeData`, `isLoading`, `error`) and the
  handlers (`handleIdentify`, `handleReset`, file selection).

Below, those are shallowly embedded: JS strings become `List Char` (or
`String` where no character-level reasoning is needed), byte contents become
`List Nat` with an explicit `< 256` bound, promises become an explicit
settlement datatype, and the asynchronous UI handlers become pure state
transformers plus a small-step event relation for reachability reasoning.
-/

namespace TreeId

/-! ## Base64, modelling the browser's `FileReader.readAsDataURL` payload.

`readAsDataURL` yields `data:<mime>;base64,<standard base64 of the bytes>`.
The standard alphabet is `A-Z a-z 0-9 + /` with `=` padding. -/

def b64Alphabet : List Char :=
  "ABCDEFGHIJKLMNOPQRSTUVWXYZabcdefghijklmnopqrstuvwxyz0123456789+/".toList

def b64Char (n : Nat) : Char := b64Alphabet.getD n 'A'

def b64Index (c : Char) : Nat := b64Alphabet.indexOf c

/-- Standard base64 of a byte list: 3 bytes become 4 sextet characters; a
final group of 1 or 2 bytes is padded with `=`. -/
def base64Encode : List Nat → List Char
  | [] => []
  | [a] => [b64Char (a / 4), b64Char (a % 4 * 16), '=', '=']
  | [a, b] => [b64Char (a / 4), b64Char (a % 4 * 16 + b / 16), b64Char (b % 16 * 4), '=']
  | a :: b :: c :: rest =>
      b64Char (a / 4) :: b64Char (a % 4 * 16 + b / 16) ::
      b64Char (b % 16 * 4 + c / 64) :: b64Char (c % 64) :: base64Encode rest

/-- Standard base64 decoding, inverse of `base64Encode`: reads 4 characters at
a time, honouring `=` padding in the final group. Inputs that are not
well-formed base64 decode to a prefix or `[]`; only round-tripping matters. -/
def base64Decode : List Char → List Nat
  | c0 :: c1 :: c2 :: c3 :: rest =>
      if c2 = '=' then [b64Index c0 * 4 + b64Index c1 / 16]
      else if c3 = '=' then
        [b64Index c0 * 4 + b64Index c1 / 16, b64Index c1 % 16 * 16 + b64Index c2 / 4]
      else
        (b64Index c0 * 4 + b64Index c1 / 16) ::
        (b64Index c1 % 16 * 16 + b64Index c2 / 4) ::
        ((b64Index c2 % 4 * 64 + b64Index c3) :: base64Decode rest)
  | _ => []

theorem b64Index_b64Char : ∀ n < 64, b64Index (b64Char n) = n := by decide

theorem b64Char_ne_pad : ∀ n < 64, b64Char n ≠ '=' := by decide

theorem b64Char_ne_comma (n : Nat) : b64Char n ≠ ',' := by
  by_cases h : n < b64Alphabet.length
  · have hmem : b64Char n ∈ b64Alphabet := by
      unfold b64Char
      rw [List.getD_eq_getElem b64Alphabet 'A' h]
      exact List.getElem_mem h
    intro hc
    rw [hc] at hmem
    revert hmem
    decide
  · unfold b64Char
    rw [List.getD_eq_default b64Alphabet 'A' (Nat.le_of_not_lt h)]
    decide

theorem base64Encode_ne_comma : ∀ l : List Nat, ∀ c ∈ base64Encode l, c ≠ ',' := by
  intro l
  match l with
  | [] => intro c hc; simp [base64Encode] at hc
  | [a] =>
      intro c hc
      simp only [base64Encode, List.mem_cons, List.not_mem_nil, or_false] at hc
      rcases hc with rfl | rfl | rfl | rfl
      · exact b64Char_ne_comma _
      · exact b64Char_ne_comma _
      · decide
      · decide
  | [a, b] =>
      intro c hc
      simp only [base64Encode, List.mem_cons, List.not_mem_nil, or_false] at hc
      rcases hc with rfl | rfl | rfl | rfl
      · exact b64Char_ne_comma _
      · exact b64Char_ne_comma _
      · exact b64Char_ne_comma _
      · decide
  | a :: b :: c' :: rest =>
      intro c hc
      simp only [base64Encode, List.mem_cons] at hc
      rcases hc with rfl | rfl | rfl | rfl | hmem
      · exact b64Char_ne_comma _
      · exact b64Char_ne_comma _
      · exact b64Char_ne_comma _
      · exact b64Char_ne_comma _
      · exact base64Encode_ne_comma rest c hmem

theorem base64Decode_group1 (c0 c1 : Char) :
    base64Decode [c0, c1, '=', '='] = [b64Index c0 * 4 + b64Index c1 / 16] := by
  simp [base64Decode]

theorem base64Decode_group2 (c0 c1 c2 : Char) (h : ¬ c2 = '=') :
    base64Decode [c0, c1, c2, '='] =
      [b64Index c0 * 4 + b64Index c1 / 16, b64Index c1 % 16 * 16 + b64Index c2 / 4] := by
  simp [base64Decode, h]

theorem base64Decode_group3 (c0 c1 c2 c3 : Char) (rest : List Char)
    (h2 : ¬ c2 = '=') (h3 : ¬ c3 = '=') :
    base64Decode (c0 :: c1 :: c2 :: c3 :: rest) =
      (b64Index c0 * 4 + b64Index c1 / 16) ::
      (b64Index c1 % 16 * 16 + b64Index c2 / 4) ::
      ((b64Index c2 % 4 * 64 + b64Index c3) :: base64Decode rest) := by
  simp [base64Decode, h2, h3]

theorem base64_roundtrip :
    ∀ l : List Nat, (∀ x ∈ l, x < 256) → base64Decode (base64Encode l) = l := by
  intro l h
  match l with
  | [] => rfl
  | [a] =>
      have ha : a < 256 := h a (by simp)
      have h1 : a / 4 < 64 := by omega
      have h2 : a % 4 * 16 < 64 := by omega
      show base64Decode [b64Char (a / 4), b64Char (a % 4 * 16), '=', '='] = [a]
      rw [base64Decode_group1, b64Index_b64Char _ h1, b64Index_b64Char _ h2]
      simp only [List.cons.injEq, and_true]
      omega
  | [a, b] =>
      have ha : a < 256 := h a (by simp)
      have hb : b < 256 := h b (by simp)
      have h1 : a / 4 < 64 := by omega
      have h2 : a % 4 * 16 + b / 16 < 64 := by omega
      have h3 : b % 16 * 4 < 64 := by omega
      show base64Decode
          [b64Char (a / 4), b64Char (a % 4 * 16 + b / 16), b64Char (b % 16 * 4), '='] = [a, b]
      rw [base64Decode_group2 _ _ _ (b64Char_ne_pad _ h3),
        b64Index_b64Char _ h1, b64Index_b64Char _ h2, b64Index_b64Char _ h3]
      simp only [List.cons.injEq, and_true]
      constructor
      · omega
      · omega
  | a :: b :: c :: rest =>
      have ha : a < 256 := h a (by simp)
      have hb : b < 256 := h b (by simp)
      have hc : c < 256 := h c (by simp)
      have h1 : a / 4 < 64 := by omega
      have h2 : a % 4 * 16 + b / 16 < 64 := by omega
      have h3 : b % 16 * 4 + c / 64 < 64 := by omega
      have h4 : c % 64 < 64 := by omega
      have ih := base64_roundtrip rest (fun x hx => h x (by simp [hx]))
      show base64Decode
          (b64Char (a / 4) :: b64Char (a % 4 * 16 + b / 16) ::
            b64Char (b % 16 * 4 + c / 64) :: b64Char (c % 64) :: base64Encode rest) =
          a :: b :: c :: rest
      rw [base64Decode_group3 _ _ _ _ _ (b64Char_ne_pad _ h3) (b64Char_ne_pad _ h4),
        b64Index_b64Char _ h1, b64Index_b64Char _ h2, b64Index_b64Char _ h3,
        b64Index_b64Char _ h4, ih]
      simp only [List.cons.injEq, and_true]
      exact ⟨by omega, by omega, by omega⟩

/-! ## The data-URL split, modelling JS `String.prototype.split(',')`. -/

/-- `splitComma` models `s.split(',')`: the list of comma-free segments of
`s`, in order. Always non-empty, like the JS result array. -/
def splitComma : List Char → List (List Char)
  | [] => [[]]
  | c :: rest =>
      if c = ',' then [] :: splitComma rest
      else
        match splitComma rest with
        | [] => [[c]]
        | s :: ss => (c :: s) :: ss

theorem splitComma_no_comma :
    ∀ l : List Char, (∀ c ∈ l, c ≠ ',') → splitComma l = [l] := by
  intro l h
  induction l with
  | nil => rfl
  | cons c rest ih =>
      have hc : ¬ c = ',' := h c (by simp)
      have hrest := ih (fun x hx => h x (by simp [hx]))
      simp only [splitComma, if_neg hc, hrest]

theorem splitComma_append (a b : List Char) (ha : ∀ c ∈ a, c ≠ ',') :
    splitComma (a ++ ',' :: b) = a :: splitComma b := by
  induction a with
  | nil => simp [splitComma]
  | cons c rest ih =>
      have hc : ¬ c = ',' := ha c (by simp)
      have hrest := ih (fun x hx => ha x (by simp [hx]))
      simp only [List.cons_append, splitComma, if_neg hc, List.append_eq, hrest]

/-! ## The encoder `fileToGenerativePart` (geminiService.ts, lines 10-19).

A browser `File` is modelled as its byte content plus its declared MIME type
(`file.type`). `readAsDataURL` yields `data:<mime>;base64,<payload>` and the
code keeps `result.split(',')[1]`.

The promise built by the source only ever calls `resolve`, from the
`onloadend` callback. `onloadend` fires after a failed read too, with
`reader.result === null`; the callback then throws a `TypeError` on
`null.split` before `resolve` runs, and a throw inside a DOM event callback
does not reject the promise, so the promise never settles. `PromiseResult`
makes the three settlement possibilities explicit. -/

structure FileModel where
  bytes : List Nat
  type : List Char

structure InlineData where
  data : List Char
  mimeType : List Char

structure GenerativePart where
  inlineData : InlineData

inductive ReadOutcome
  | success
  | failure

inductive PromiseResult (α : Type)
  | resolved (a : α)
  | rejected (msg : List Char)
  | pending

/-- `reader.result` after `readAsDataURL(file)` succeeds: the data URL. -/
def readAsDataURL (f : FileModel) : List Char :=
  "data:".toList ++ (f.type ++ (";base64,".toList ++ base64Encode f.bytes))

/-- The successfully encoded part:
`{ inlineData: { data: result.split(',')[1], mimeType: file.type } }`. -/
def encodedPart (f : FileModel) : GenerativePart :=
  { inlineData := { data := (splitComma (readAsDataURL f)).getD 1 []
                    mimeType := f.type } }

/-- `fileToGenerativePart` (geminiService.ts, lines 10-19), indexed by the
outcome of the underlying read. Success: resolves with `encodedPart`.
Failure: the promise never settles (see the section comment). -/
def fileToGenerativePart (f : FileModel) : ReadOutcome → PromiseResult GenerativePart
  | .success => .resolved (encodedPart f)
  | .failure => .pending

theorem fileToGenerativePart_data (f : FileModel)
    (hm : f.type = "image/png".toList ∨ f.type = "image/jpeg".toList) :
    (splitComma (readAsDataURL f)).getD 1 [] = base64Encode f.bytes := by
  rcases hm with hm | hm
  · have hurl : readAsDataURL f =
        "data:image/png;base64".toList ++ ',' :: base64Encode f.bytes := by
      rw [readAsDataURL, hm]; rfl
    rw [hurl, splitComma_append _ _ (by decide),
      splitComma_no_comma _ (base64Encode_ne_comma f.bytes)]
    rfl
  · have hurl : readAsDataURL f =
        "data:image/jpeg;base64".toList ++ ',' :: base64Encode f.bytes := by
      rw [readAsDataURL, hm]; rfl
    rw [hurl, splitComma_append _ _ (by decide),
      splitComma_no_comma _ (base64Encode_ne_comma f.bytes)]
    rfl

/-! ## `JSON.parse`, modelled on the schema-relevant JSON subset.

The client calls the platform's `JSON.parse` on the trimmed response text.
It is modelled here by a recursive-descent parser covering strings (with the
single-character escapes; `\u` escapes are outside the modelled subset),
arrays, objects, `true`, `false` and `null` — the constructs the declared
response schema (strings, array of strings, object) can produce. Numeric
literals are outside the modelled subset. Inputs outside the subset parse to
`none`, which models a `JSON.parse` throw. -/

inductive Json where
  | str (s : List Char)
  | arr (elems : List Json)
  | obj (fields : List (List Char × Json))
  | bool (b : Bool)
  | null

/-- JSON insignificant whitespace: space, tab, line feed, carriage return. -/
def isJsonWs (c : Char) : Bool :=
  c = ' ' || c = '\t' || c = '\n' || c = '\r'

def skipWs : List Char → List Char
  | [] => []
  | c :: rest => if isJsonWs c then skipWs rest else c :: rest

/-- Single-character string escapes of JSON. -/
def escChar : Char → Option Char
  | '"' => some '"'
  | '\\' => some '\\'
  | '/' => some '/'
  | 'b' => some '\x08'
  | 'f' => some '\x0c'
  | 'n' => some '\n'
  | 'r' => some '\r'
  | 't' => some '\t'
  | _ => none

/-- Body of a JSON string after the opening quote: returns the decoded
characters and the input remaining after the closing quote. -/
def parseStringBody : List Char → Option (List Char × List Char)
  | [] => none
  | '"' :: rest => some ([], rest)
  | '\\' :: e :: rest =>
      match escChar e with
      | some c => (parseStringBody rest).map (fun p => (c :: p.1, p.2))
      | none => none
  | c :: rest =>
      if c.val < 32 then none
      else (parseStringBody rest).map (fun p => (c :: p.1, p.2))

mutual

def parseValue : Nat → List Char → Option (Json × List Char)
  | 0, _ => none
  | Nat.succ fuel, s =>
      match skipWs s with
      | '"' :: rest => (parseStringBody rest).map (fun p => (Json.str p.1, p.2))
      | '[' :: rest =>
          match skipWs rest with
          | ']' :: r2 => some (Json.arr [], r2)
          | _ => (parseElems fuel rest).map (fun p => (Json.arr p.1, p.2))
      | '\x7b' :: rest =>
          match skipWs rest with
          | '\x7d' :: r2 => some (Json.obj [], r2)
          | _ => (parseMembers fuel rest).map (fun p => (Json.obj p.1, p.2))
      | 't' :: 'r' :: 'u' :: 'e' :: rest => some (Json.bool true, rest)
      | 'f' :: 'a' :: 'l' :: 's' :: 'e' :: rest => some (Json.bool false, rest)
      | 'n' :: 'u' :: 'l' :: 'l' :: rest => some (Json.null, rest)
      | _ => none

def parseElems : Nat → List Char → Option (List Json × List Char)
  | 0, _ => none
  | Nat.succ fuel, s =>
      match parseValue fuel s with
      | none => none
      | some (v, r) =>
          match skipWs r with
          | ',' :: r2 => (parseElems fuel r2).map (fun p => (v :: p.1, p.2))
          | ']' :: r2 => some ([v], r2)
          | _ => none

def parseMembers : Nat → List Char → Option (List (List Char × Json) × List Char)
  | 0, _ => none
  | Nat.succ fuel, s =>
      match skipWs s with
      | '"' :: rest =>
          match parseStringBody rest with
          | none => none
          | some (key, r) =>
              match skipWs r with
              | ':' :: r2 =>
                  match parseValue fuel r2 with
                  | none => none
                  | some (v, r3) =>
                      match skipWs r3 with
                      | ',' :: r4 =>
                          (parseMembers fuel r4).map (fun p => ((key, v) :: p.1, p.2))
                      | '\x7d' :: r4 => some ([(key, v)], r4)
                      | _ => none
              | _ => none
      | _ => none

end

/-- `JSON.parse` on the modelled subset: one value, then only trailing
whitespace. `none` models a thrown `SyntaxError`. -/
def parseJson (s : List Char) : Option Json :=
  match parseValue (2 * s.length + 4) s with
  | some (j, r) => if skipWs r = [] then some j else none
  | none => none

/-- JS `String.prototype.trim`, modelled on the common whitespace set. -/
def jsTrim (s : List Char) : List Char :=
  (skipWs (skipWs s).reverse).reverse

/-! ## The request built by `identifyTree` (geminiService.ts, lines 28-66). -/

inductive SchemaType where
  | OBJECT
  | STRING
  | ARRAY
  deriving DecidableEq

/-- A node of the declared response schema: its `Type`, optional description,
`properties` (for objects), `items` (for arrays) and `required` list. -/
inductive Schema where
  | node (type : SchemaType) (description : Option String)
      (properties : List (String × Schema)) (items : Option Schema)
      (required : List String)

def Schema.type : Schema → SchemaType
  | .node t _ _ _ _ => t

def Schema.properties : Schema → List (String × Schema)
  | .node _ _ ps _ _ => ps

def Schema.items : Schema → Option Schema
  | .node _ _ _ i _ => i

def Schema.required : Schema → List String
  | .node _ _ _ _ r => r

/-- The `responseSchema` literal of the source. -/
def treeSchema : Schema :=
  .node .OBJECT none
    [("commonName",
        .node .STRING (some "The common name of the tree.") [] none []),
     ("scientificName",
        .node .STRING (some "The scientific (Latin) name of the tree.") [] none []),
     ("description",
        .node .STRING
          (some "A brief, interesting paragraph about the tree, including its characteristics and typical habitat.")
          [] none []),
     ("careTips",
        .node .ARRAY
          (some "A short list of 3-4 essential care tips for this tree if it were in a garden.")
          [] (some (.node .STRING none [] none [])) [])]
    none
    ["commonName", "scientificName", "description"]

inductive ContentPart where
  | image (d : InlineData)
  | text (s : String)

structure Content where
  parts : List ContentPart

structure GenConfig where
  responseMimeType : String
  responseSchema : Schema

structure GenRequest where
  model : String
  contents : List Content
  config : GenConfig

/-- The argument of the single `ai.models.generateContent` call. -/
def identifyTreeRequest (imagePart : GenerativePart) : GenRequest :=
  { model := "gemini-2.5-flash"
    contents := [{ parts := [ContentPart.image imagePart.inlineData,
                             ContentPart.text "Identify the tree in this image."] }]
    config := { responseMimeType := "application/json"
                responseSchema := treeSchema } }

/-- The requests one invocation of `identifyTree` issues after a successful
encoding: the single `generateContent` call of the source. -/
def identifyTreeRequests (f : FileModel) : List GenRequest :=
  [identifyTreeRequest (encodedPart f)]

/-! ## The error policy of `identifyTree` (geminiService.ts, lines 68-77).

`identifyTree` is modelled from the `generateContent` outcome onward (the
encoder was handled above; on a failed read its promise never settles, so no
further behaviour arises). The environment supplies a `ModelOutcome`: the
call resolved with response text, rejected with an `Error` carrying a
message, or rejected with a non-`Error` value. A `JSON.parse` failure throws
a `SyntaxError` (an `Error`) whose message is engine-specific, so it is a
parameter. `Except.error m` models `identifyTree` throwing an `Error` with
message `m`. -/

def errPrefix : List Char :=
  "Failed to identify the tree. The model responded with an error: ".toList

def unknownErrorMsg : List Char :=
  "An unknown error occurred while identifying the tree. Please try again.".toList

inductive ModelOutcome where
  | response (text : List Char)
  | rejectError (msg : List Char)
  | rejectOther

def identifyTree (o : ModelOutcome) (parseErrMsg : List Char) :
    Except (List Char) Json :=
  match o with
  | .response t =>
      match parseJson (jsTrim t) with
      | some j => .ok j
      | none => .error (errPrefix ++ parseErrMsg)
  | .rejectError m => .error (errPrefix ++ m)
  | .rejectOther => .error unknownErrorMsg

/-! ## The App component's state and handlers.

`App` holds four `useState` cells. The parsed response is held as the raw
`Json` value, exactly as `JSON.parse` returned it (the source performs no
validation or conversion). `previewUrl` is the `useMemo` object URL derived
from the selected file; it is modelled by the file it was created for. -/

structure AppState where
  selectedFile : Option FileModel
  treeData : Option Json
  isLoading : Bool
  error : Option (List Char)

def initialState : AppState :=
  { selectedFile := none, treeData := none, isLoading := false, error := none }

/-- `onImageSelect`, which `App` wires directly to `setSelectedFile`. -/
def handleFileSelect (s : AppState) (f : FileModel) : AppState :=
  { s with selectedFile := some f }

/-- `ImageUploader.handleFileChange`: takes `event.target.files?.[0]` and
calls `onImageSelect` only when a file is present. -/
def handleFileChange (files : List FileModel) (s : AppState) : AppState :=
  match files.head? with
  | some f => handleFileSelect s f
  | none => s

/-- The synchronous prefix of `handleIdentify` past the guard:
`setIsLoading(true); setError(null); setTreeData(null)`. -/
def startIdentify (s : AppState) : AppState :=
  { s with isLoading := true, error := none, treeData := none }

def defaultCatchMsg : List Char := "An unexpected error occurred.".toList

/-- `err.message || 'An unexpected error occurred.'`: the empty string is
falsy in JS. -/
def jsOrDefault (m : List Char) : List Char :=
  if m = [] then defaultCatchMsg else m

/-- The continuation of `handleIdentify` after `identifyTree` settles: the
`then`/`catch`/`finally` updates, which run as one synchronous block. -/
def applyOutcome (s : AppState) (r : Except (List Char) Json) : AppState :=
  match r with
  | .ok j => { s with treeData := some j, isLoading := false }
  | .error m => { s with error := some (jsOrDefault m), isLoading := false }

/-- One whole run of `handleIdentify` given the outcome `identifyTree` would
settle with; the `Bool` records whether the client was invoked. With no file
selected the handler returns at the guard. -/
def handleIdentify (s : AppState) (r : Except (List Char) Json) :
    AppState × Bool :=
  match s.selectedFile with
  | none => (s, false)
  | some _ => (applyOutcome (startIdentify s) r, true)

def previewUrl (s : AppState) : Option FileModel := s.selectedFile

/-- `handleReset`: clears the four cells; the `Bool` records whether
`URL.revokeObjectURL(previewUrl)` was called (it is, iff a preview exists).
-/
def handleReset (s : AppState) : AppState × Bool :=
  (initialState, (previewUrl s).isSome)

/-- `disabled={!selectedFile || isLoading}` on the primary action control. -/
def buttonDisabled (s : AppState) : Bool :=
  s.selectedFile.isNone || s.isLoading

/-- Property access on a `JSON.parse` result (`data.commonName`, ...).
`JSON.parse` keeps the last of duplicate keys, hence `getLast?`. -/
def Json.getField (j : Json) (k : List Char) : Option Json :=
  match j with
  | .obj fields => ((fields.filter (fun p => p.1 == k)).getLast?).map (fun p => p.2)
  | _ => none

/-! ## Reachability.

The UI is event-driven. One `handleIdentify` run is not atomic: the guard
and the three leading `set` calls run synchronously (`startIdentify`), the
handler then awaits `identifyTree`, and the continuation (`applyOutcome`)
runs later as one synchronous block. Between the two, any other event can
run. `SysStep` is the faithful event relation: `pending` counts in-flight
`identifyTree` calls, a `start` needs the control enabled (it is a click on
the primary control), a `complete` needs an in-flight call — the source has
no staleness check, so a completion applies to whatever the state then is —
and `reset` is always available once shown.

`UIStep` is the single-flight restriction: completions are only delivered
while the loading flag is set, i.e. no identification attempt overlaps a
reset-and-restart. -/

structure Sys where
  app : AppState
  pending : Nat

inductive SysStep : Sys → Sys → Prop
  | select (f : FileModel) (a : AppState) (p : Nat) :
      SysStep ⟨a, p⟩ ⟨handleFileSelect a f, p⟩
  | start (a : AppState) (p : Nat) :
      buttonDisabled a = false → SysStep ⟨a, p⟩ ⟨startIdentify a, p + 1⟩
  | complete (r : Except (List Char) Json) (a : AppState) (p : Nat) :
      SysStep ⟨a, p + 1⟩ ⟨applyOutcome a r, p⟩
  | reset (a : AppState) (p : Nat) :
      SysStep ⟨a, p⟩ ⟨(handleReset a).1, p⟩

inductive SysReachable : Sys → Prop
  | init : SysReachable ⟨initialState, 0⟩
  | step (s t : Sys) : SysReachable s → SysStep s t → SysReachable t

inductive UIStep : AppState → AppState → Prop
  | select (f : FileModel) (a : AppState) : UIStep a (handleFileSelect a f)
  | start (a : AppState) :
      buttonDisabled a = false → UIStep a (startIdentify a)
  | complete (r : Except (List Char) Json) (a : AppState) :
      a.isLoading = true → UIStep a (applyOutcome a r)
  | reset (a : AppState) : UIStep a (handleReset a).1

inductive UIReachable : AppState → Prop
  | init : UIReachable initialState
  | step (a b : AppState) : UIReachable a → UIStep a b → UIReachable b

/-- How many of the three display drivers (loading flag, result, error) are
active. -/
def activeCount (s : AppState) : Nat :=
  (if s.isLoading then 1 else 0) + (if s.treeData.isSome then 1 else 0) +
    (if s.error.isSome then 1 else 0)

theorem activeCount_le_one_of_uiStep (a b : AppState)
    (ha : activeCount a ≤ 1) (h : UIStep a b) : activeCount b ≤ 1 := by
  cases h with
  | select f a =>
      simp only [activeCount, handleFileSelect] at ha ⊢
      exact ha
  | start a henabled =>
      simp [activeCount, startIdentify]
  | complete r a hload =>
      obtain ⟨sf, td, il, er⟩ := a
      cases il with
      | false => simp at hload
      | true =>
          cases td <;> cases er <;> cases r <;>
            simp_all [activeCount, applyOutcome, jsOrDefault]
  | reset a =>
      simp [activeCount, handleReset, initialState]

theorem activeCount_le_one_of_uiReachable (s : AppState)
    (h : UIReachable s) : activeCount s ≤ 1 := by
  induction h with
  | init => simp [activeCount, initialState]
  | step a b _ hstep ih => exact activeCount_le_one_of_uiStep a b ih hstep

/-! ## Shared concrete data for witnesses and counterexamples. -/

def file0 : FileModel := ⟨[77, 0, 255], "image/png".toList⟩

/-- A state with a file selected and a prior error displayed — reached by
selecting a file, triggering identification and having it fail. -/
def errDemoState : AppState :=
  { selectedFile := some file0, treeData := none, isLoading := false,
    error := some "boom".toList }

theorem errDemoState_reachable : UIReachable errDemoState := by
  have h0 : UIReachable initialState := UIReachable.init
  have h1 := UIReachable.step _ _ h0 (UIStep.select file0 initialState)
  have h2 := UIReachable.step _ _ h1
    (UIStep.start (handleFileSelect initialState file0) (by decide))
  have h3 := UIReachable.step _ _ h2
    (UIStep.complete (Except.error "boom".toList)
      (startIdentify (handleFileSelect initialState file0)) rfl)
  exact h3

/-! ## The claims. -/

/-- C1: for a valid PNG/JPEG file whose read succeeds, `fileToGenerativePart`
resolves with a record whose `data` field is the base64 encoding of the
file's full byte content (the data-URL segment after the first comma), whose
decoding reconstructs the original bytes exactly, and whose `mimeType` field
equals the file's declared MIME type. -/
theorem claim_C1 (f : FileModel)
    (hm : f.type = "image/png".toList ∨ f.type = "image/jpeg".toList)
    (hb : ∀ x ∈ f.bytes, x < 256) :
    fileToGenerativePart f ReadOutcome.success =
      PromiseResult.resolved (encodedPart f) ∧
    (encodedPart f).inlineData.data = base64Encode f.bytes ∧
    base64Decode (encodedPart f).inlineData.data = f.bytes ∧
    (encodedPart f).inlineData.mimeType = f.type := by
  have hdata : (encodedPart f).inlineData.data = base64Encode f.bytes :=
    fileToGenerativePart_data f hm
  refine ⟨rfl, hdata, ?_, rfl⟩
  rw [hdata]
  exact base64_roundtrip f.bytes hb

/-- Witness for C1 at the concrete file `file0` (bytes `[77, 0, 255]`,
declared type `image/png`). -/
theorem claim_C1_witness :
    fileToGenerativePart file0 ReadOutcome.success =
      PromiseResult.resolved (encodedPart file0) ∧
    (encodedPart file0).inlineData.data = base64Encode file0.bytes ∧
    base64Decode (encodedPart file0).inlineData.data = file0.bytes ∧
    (encodedPart file0).inlineData.mimeType = file0.type :=
  claim_C1 file0 (Or.inl rfl) (by decide)

/-- C2 counterexample: from the reachable state `errDemoState` (file
selected, prior error stored), running the file-selection handler with a
chosen file leaves the prior error in place — the stored error is not
cleared to `null`, refuting the claim as stated. -/
theorem claim_C2_cex :
    UIReachable errDemoState ∧
    (handleFileChange [file0] errDemoState).selectedFile = some file0 ∧
    (handleFileChange [file0] errDemoState).error = some "boom".toList ∧
    (handleFileChange [file0] errDemoState).error ≠ none :=
  ⟨errDemoState_reachable, rfl, rfl, by decide⟩

/-- C2 (amended): selecting a file, from any UI state, sets the selected
file (moving the UI to the file-selected state) and leaves the stored
result and the stored error unchanged; prior result/error are cleared only
when identification is next triggered. -/
theorem claim_C2 (s : AppState) (f : FileModel) :
    handleFileChange [f] s = { s with selectedFile := some f } ∧
    (handleFileChange [f] s).treeData = s.treeData ∧
    (handleFileChange [f] s).error = s.error :=
  ⟨rfl, rfl, rfl⟩

set_option maxRecDepth 8000 in
/-- C3: an exception from the call or parsing is caught once; an `Error`
is rethrown with the template message embedding the original message, a
non-`Error` value is replaced by the fixed fallback; and a client rejection
with message "network down" puts the UI in the error state with a stored
message containing "network down". -/
theorem claim_C3 (m pm : List Char) (f : FileModel) (td : Option Json)
    (il : Bool) (er : Option (List Char)) :
    identifyTree (ModelOutcome.rejectError m) pm =
      Except.error (errPrefix ++ m) ∧
    identifyTree ModelOutcome.rejectOther pm = Except.error unknownErrorMsg ∧
    (handleIdentify ⟨some f, td, il, er⟩
        (identifyTree (ModelOutcome.rejectError "network down".toList) pm)).1 =
      { selectedFile := some f, treeData := none, isLoading := false,
        error := some (errPrefix ++ "network down".toList) } ∧
    "network down".toList <:+: errPrefix ++ "network down".toList := by
  refine ⟨rfl, rfl, ?_, by decide⟩
  show ({ selectedFile := some f, treeData := none, isLoading := false,
          error := some (jsOrDefault (errPrefix ++ "network down".toList)) }
        : AppState) =
      { selectedFile := some f, treeData := none, isLoading := false,
        error := some (errPrefix ++ "network down".toList) }
  have : jsOrDefault (errPrefix ++ "network down".toList) =
      errPrefix ++ "network down".toList := by decide
  rw [this]

/-- C4 counterexample: on a failed read, the promise returned by
`fileToGenerativePart` does not reject — it never settles (the `onloadend`
callback throws on `null.split` before `resolve`, and nothing ever calls a
rejection), so the call hangs, refuting the claim as stated. -/
theorem claim_C4_cex :
    fileToGenerativePart file0 ReadOutcome.failure = PromiseResult.pending ∧
    ∀ e : List Char,
      fileToGenerativePart file0 ReadOutcome.failure ≠ PromiseResult.rejected e :=
  ⟨rfl, fun _ h => PromiseResult.noConfusion h⟩

/-- C4 (amended): if the underlying file read fails during encoding, the
promise returned by `fileToGenerativePart` never settles — it neither
resolves nor rejects, so the caller hangs instead of observing a rejection.
-/
theorem claim_C4 (f : FileModel) :
    fileToGenerativePart f ReadOutcome.failure = PromiseResult.pending := rfl

/-- The state the stale-completion interleaving ends in: result and error
stored at once. -/
def staleState : AppState :=
  { selectedFile := some file0, treeData := some (Json.obj []),
    isLoading := false, error := some "boom".toList }

/-- C5 counterexample: the event sequence select, identify, reset (the reset
control is available while loading), select, identify again, then delivery
of the first call's failure followed by the second call's success — every
step the code permits — reaches a state where the stored result and the
stored error are both non-null, refuting the claim as stated. -/
theorem claim_C5_cex :
    SysReachable ⟨staleState, 0⟩ ∧ activeCount staleState = 2 ∧
    staleState.treeData ≠ none ∧ staleState.error ≠ none := by
  refine ⟨?_, by decide, fun h => Option.noConfusion h, fun h => Option.noConfusion h⟩
  have h0 : SysReachable ⟨initialState, 0⟩ := SysReachable.init
  have h1 : SysReachable ⟨⟨some file0, none, false, none⟩, 0⟩ :=
    SysReachable.step _ _ h0 (SysStep.select file0 _ _)
  have h2 : SysReachable ⟨⟨some file0, none, true, none⟩, 1⟩ :=
    SysReachable.step _ _ h1 (SysStep.start _ _ (by decide))
  have h3 : SysReachable ⟨⟨none, none, false, none⟩, 1⟩ :=
    SysReachable.step _ _ h2 (SysStep.reset _ _)
  have h4 : SysReachable ⟨⟨some file0, none, false, none⟩, 1⟩ :=
    SysReachable.step _ _ h3 (SysStep.select file0 _ _)
  have h5 : SysReachable ⟨⟨some file0, none, true, none⟩, 2⟩ :=
    SysReachable.step _ _ h4 (SysStep.start _ _ (by decide))
  have h6 : SysReachable ⟨⟨some file0, none, false, some "boom".toList⟩, 1⟩ :=
    SysReachable.step _ _ h5 (SysStep.complete (Except.error "boom".toList) _ _)
  exact SysReachable.step _ _ h6 (SysStep.complete (Except.ok (Json.obj [])) _ _)

/-- C5 (amended): in every state reachable under the single-flight
discipline — completions are delivered only while the loading flag is set,
i.e. no identification attempt overlaps a reset-and-restart — at most one of
the loading flag, the stored result and the stored error is active. -/
theorem claim_C5 (s : AppState) (h : UIReachable s) : activeCount s ≤ 1 :=
  activeCount_le_one_of_uiReachable s h

/-- Witness for C5 at the reachable error state `errDemoState`. -/
theorem claim_C5_witness : activeCount errDemoState ≤ 1 :=
  claim_C5 errDemoState errDemoState_reachable

/-- C6: triggering reset from any state clears the selected file, result and
error, clears the loading flag, revokes the preview object URL exactly when
a preview exists, and leaves the primary action control disabled. -/
theorem claim_C6 (s : AppState) :
    (handleReset s).1.selectedFile = none ∧
    (handleReset s).1.treeData = none ∧
    (handleReset s).1.error = none ∧
    (handleReset s).1.isLoading = false ∧
    ((handleReset s).2 = true ↔ previewUrl s ≠ none) ∧
    buttonDisabled (handleReset s).1 = true := by
  refine ⟨rfl, rfl, rfl, rfl, ?_, rfl⟩
  simp [handleReset, Option.isSome_iff_ne_none]

/-- C7: in every UI state, the primary action control is disabled iff no
file is selected or the loading flag is set. -/
theorem claim_C7 (s : AppState) :
    buttonDisabled s = true ↔ (s.selectedFile = none ∨ s.isLoading = true) := by
  simp [buttonDisabled, Option.isNone_iff_eq_none]

theorem errPrefix_append_ne_nil (pm : List Char) : errPrefix ++ pm ≠ [] := by
  have hcons : errPrefix =
      'F' :: "ailed to identify the tree. The model responded with an error: ".toList :=
    rfl
  rw [hcons]
  simp

/-- C8: `identifyTree` parses the response text after trimming whitespace.
If the trimmed text parses as JSON, the UI moves to the result state holding
exactly the parsed value (and nothing else active); if it does not parse,
the thrown parse error is caught and rethrown with the template message, and
the UI moves to the error state with a non-empty stored message. -/
theorem claim_C8 (t pm : List Char) (f : FileModel) (td : Option Json)
    (il : Bool) (er : Option (List Char)) :
    (∀ j, parseJson (jsTrim t) = some j →
      handleIdentify ⟨some f, td, il, er⟩
          (identifyTree (ModelOutcome.response t) pm) =
        ({ selectedFile := some f, treeData := some j, isLoading := false,
           error := none }, true)) ∧
    (parseJson (jsTrim t) = none →
      identifyTree (ModelOutcome.response t) pm =
        Except.error (errPrefix ++ pm) ∧
      (handleIdentify ⟨some f, td, il, er⟩
          (identifyTree (ModelOutcome.response t) pm)).1 =
        { selectedFile := some f, treeData := none, isLoading := false,
          error := some (errPrefix ++ pm) } ∧
      errPrefix ++ pm ≠ []) := by
  constructor
  · intro j hj
    have hid : identifyTree (ModelOutcome.response t) pm = Except.ok j := by
      show (match parseJson (jsTrim t) with
            | some j' => Except.ok j'
            | none => Except.error (errPrefix ++ pm)) = Except.ok j
      rw [hj]
    rw [hid]
    rfl
  · intro hn
    have hne := errPrefix_append_ne_nil pm
    have hid : identifyTree (ModelOutcome.response t) pm =
        Except.error (errPrefix ++ pm) := by
      show (match parseJson (jsTrim t) with
            | some j' => Except.ok j'
            | none => Except.error (errPrefix ++ pm)) =
          Except.error (errPrefix ++ pm)
      rw [hn]
    refine ⟨hid, ?_, hne⟩
    rw [hid]
    show ({ selectedFile := some f, treeData := none, isLoading := false,
            error := some (jsOrDefault (errPrefix ++ pm)) } : AppState) = _
    rw [show jsOrDefault (errPrefix ++ pm) = errPrefix ++ pm from if_neg hne]

/-- The well-formed mocked response of the spec's example, with surrounding
whitespace so that trimming is exercised. -/
def oakJson : List Char :=
  ("  \x7b\"commonName\": \"Oak\", \"scientificName\": \"Quercus robur\", " ++
   "\"description\": \"A sturdy tree.\", " ++
   "\"careTips\": [\"Water weekly\", \"Full sun\"]\x7d \n").toList

/-- What `JSON.parse` yields on `oakJson`. -/
def oakTree : Json :=
  Json.obj
    [("commonName".toList, Json.str "Oak".toList),
     ("scientificName".toList, Json.str "Quercus robur".toList),
     ("description".toList, Json.str "A sturdy tree.".toList),
     ("careTips".toList,
        Json.arr [Json.str "Water weekly".toList, Json.str "Full sun".toList])]

/-- A malformed mocked response: the object is never closed. -/
def badJson : List Char := "\x7b\"commonName\": \"Oak\"".toList

set_option maxRecDepth 8000 in
/-- Witness for C8: the Oak example parses to `oakTree` and lands in the
result state with the care tips in order; the malformed text lands in the
error state with the templated non-empty message. -/
theorem claim_C8_witness :
    handleIdentify ⟨some file0, none, false, none⟩
        (identifyTree (ModelOutcome.response oakJson)
          "Unexpected end of JSON input".toList) =
      ({ selectedFile := some file0, treeData := some oakTree,
         isLoading := false, error := none }, true) ∧
    (handleIdentify ⟨some file0, none, false, none⟩
        (identifyTree (ModelOutcome.response badJson)
          "Unexpected end of JSON input".toList)).1.error =
      some (errPrefix ++ "Unexpected end of JSON input".toList) ∧
    oakTree.getField "commonName".toList = some (Json.str "Oak".toList) ∧
    oakTree.getField "careTips".toList =
      some (Json.arr [Json.str "Water weekly".toList,
                      Json.str "Full sun".toList]) := by
  have h := claim_C8 oakJson "Unexpected end of JSON input".toList
    file0 none false none
  have hb := claim_C8 badJson "Unexpected end of JSON input".toList
    file0 none false none
  refine ⟨h.1 oakTree rfl, ?_, rfl, rfl⟩
  rw [(hb.2 rfl).2.1]

/-- C9: one invocation of `identifyTree` issues exactly one request, naming
the fixed model, carrying exactly two ordered parts — the encoded image then
the fixed instruction — and a generation configuration requesting JSON
output against the declared schema: string fields `commonName`,
`scientificName`, `description`, an array-of-strings `careTips`, with
exactly the first three required. -/
theorem claim_C9 (f : FileModel) :
    identifyTreeRequests f = [identifyTreeRequest (encodedPart f)] ∧
    (identifyTreeRequests f).length = 1 ∧
    (identifyTreeRequest (encodedPart f)).model = "gemini-2.5-flash" ∧
    (identifyTreeRequest (encodedPart f)).contents.map Content.parts =
      [[ContentPart.image (encodedPart f).inlineData,
        ContentPart.text "Identify the tree in this image."]] ∧
    (identifyTreeRequest (encodedPart f)).config.responseMimeType =
      "application/json" ∧
    (identifyTreeRequest (encodedPart f)).config.responseSchema = treeSchema ∧
    treeSchema.type = SchemaType.OBJECT ∧
    treeSchema.required = ["commonName", "scientificName", "description"] ∧
    treeSchema.properties.map
        (fun p => (p.1, p.2.type, p.2.items.map Schema.type)) =
      [("commonName", SchemaType.STRING, none),
       ("scientificName", SchemaType.STRING, none),
       ("description", SchemaType.STRING, none),
       ("careTips", SchemaType.ARRAY, some SchemaType.STRING)] :=
  ⟨rfl, rfl, rfl, rfl, rfl, rfl, rfl, rfl, rfl⟩

/-- C10: invoking `handleIdentify` with no file selected is a no-op — it
returns at the guard, leaves the whole state unchanged, and the client is
not invoked. -/
theorem claim_C10 (s : AppState) (r : Except (List Char) Json)
    (h : s.selectedFile = none) : handleIdentify s r = (s, false) := by
  obtain ⟨sf, td, il, er⟩ := s
  cases sf with
  | none => rfl
  | some f => exact Option.noConfusion h

/-- Witness for C10 at the initial state. -/
theorem claim_C10_witness :
    handleIdentify initialState (Except.error []) = (initialState, false) :=
  claim_C10 initialState (Except.error []) rfl

end TreeId
